import Mathlib

/-
Verification development for the value-and-type binding core of a GraphQL
server runtime (the `values.go`-style code in `language/kinds/kinds.go`):
`isNullish`, `isValidInputValue`, `coerceValue`, `valueFromAST`,
`typeFromAST`, `getVariableValue`, `getVariableValues`, `getArgumentValues`.

Modelling conventions:
- The dynamic runtime value (`interface{}` in the source) is the tagged
  union `Value` below, as the design notes of the spec prescribe for
  implementations without reflection.  A Go `nil` interface is `Value.null`;
  Go maps (`map[string]interface{}`) are association lists whose keys are
  unique in any value a Go program can build; Go slices are `Value.list`.
- Floating-point payloads are abstracted to their only observable property
  in this subsystem, NaN-ness (`Value.float nan`); no claim depends on the
  textual formatting of a finite float.
- Go map iteration order is unspecified; the source sorts the key sets it
  iterates where order is observable, and we iterate association lists in
  declaration order where it is not (the result is itself a map).
- Scalar and enum coercers (`ParseValue`, `ParseLiteral`) are function
  fields of the type, as in the source's schema types.
-/

set_option maxHeartbeats 1600000

/-- Runtime input value: the tagged-union model of the source's
`interface{}` values (null/missing, booleans, integers, floats, strings,
sequences, string-keyed mappings). -/
inductive Value where
  | null
  | bool (b : Bool)
  | int (n : Int)
  | float (nan : Bool)
  | str (s : String)
  | list (items : List Value)
  | obj (entries : List (String × Value))

/-- Literal value AST: the source's `ast.Value` variants
(Variable, IntValue, FloatValue, StringValue, BooleanValue, EnumValue,
ListValue, ObjectValue).  A `Variable` node's `Name` pointer may be nil,
hence `Option String`; an object field's `Name` likewise. -/
inductive AstValue where
  | «variable» (name : Option String)
  | intValue (value : String)
  | floatValue (value : String)
  | stringValue (value : String)
  | booleanValue (value : Bool)
  | enumValue (value : String)
  | listValue (values : List AstValue)
  | objectValue (fields : List (Option String × AstValue))

/-- Input schema types: the subset of schema types usable for variables and
arguments (Scalar, Enum, InputObject, List, NonNull).  Scalars and enums
carry their `ParseValue`/`ParseLiteral` coercers as functions, as in the
source; an input-object field is `(name, type, defaultValue)` where a Go
nil `DefaultValue` is `Value.null`. -/
inductive InputType where
  | scalar (name : String) (parseValue : Value → Value) (parseLiteral : AstValue → Value)
  | enum (name : String) (parseValue : Value → Value) (parseLiteral : AstValue → Value)
  | inputObject (name : String) (fields : List (String × InputType × Value))
  | list (ofType : InputType)
  | nonNull (ofType : InputType)

/-- Type reference AST: the source's `ast.Type` variants Named, List,
NonNull; a Named node's `Name` pointer may be nil. -/
inductive TypeAst where
  | named (name : Option String)
  | list (ofType : TypeAst)
  | nonNull (ofType : TypeAst)

/-- Variable definition AST node (`ast.VariableDefinition`): the variable's
name (none models a nil `Variable` or nil `Name`, which the binder skips),
the declared type reference, and the optional default-value literal. -/
structure VariableDefinition where
  varName : Option String
  type : TypeAst
  defaultValue : Option AstValue

/-- Argument definition (`*Argument` in the source): declared name, input
type and runtime default value (a Go nil default is `Value.null`). -/
structure Argument where
  privateName : String
  type : InputType
  defaultValue : Value

/-- Argument AST node (`ast.Argument`): optional name and value. -/
structure AstArgument where
  name : Option String
  value : Option AstValue

/-- Modelled from the spec: the schema collaborator is consumed only
through `Schema.type(name) → Type | absent` (§6); we model it as an
association list of named input types.  A lookup miss, and a hit on a type
that is not an input type, are both `none`: the binder treats the two
identically (§4.6 step 3). -/
abbrev Schema := List (String × InputType)

/-- Look up a named type in the schema (`schema.Type(name)`). -/
def schemaType : Schema → String → Option InputType
  | [], _ => none
  | (n, t) :: rest, k => if n = k then some t else schemaType rest k

/-- Look up a field in an input object's field map (`ttype.Fields()[name]`);
Go map keys are unique, so first match is the map's binding. -/
def lookupField : List (String × InputType × Value) → String → Option (InputType × Value)
  | [], _ => none
  | (n, t, d) :: rest, k => if n = k then some (t, d) else lookupField rest k

/-- Look up a key in a runtime string-keyed map (`m[k]`); a miss is the Go
zero value `nil`, represented by the caller via `Option.getD Value.null`. -/
def lookupVal : List (String × Value) → String → Option Value
  | [], _ => none
  | (n, v) :: rest, k => if n = k then some v else lookupVal rest k

/-- Map update `m[k] = v`: replace the binding if the key exists, else
append it (association-list model of a Go map assignment). -/
def mapInsert (m : List (String × Value)) (k : String) (v : Value) : List (String × Value) :=
  if m.any (fun p => p.1 = k) then m.map (fun p => if p.1 = k then (k, v) else p)
  else m ++ [(k, v)]

/-- Returns true if a value is null, undefined, or NaN (`isNullish`).
A Go `nil` interface is `Value.null`; a float is nullish iff it is NaN.
The source also float-casts integers and asks `math.IsNaN`, but the IEEE-754
double of an integer is never NaN, so integers are never nullish; see
`intCastIsNaN`.  The source's string branch can only return false: a valid
`reflect.Value` of string kind always has `IsValid() = true`. -/
def isNullish : Value → Bool
  | .null => true
  | .float nan => nan
  | _ => false

/-- Whether the host representation reports the float cast of an integer as
NaN (`math.IsNaN(float64(value.Int()))` in the source's `isNullish`): the
IEEE-754 double obtained from any integer is finite or infinite, never NaN,
so this is constantly false. -/
def intCastIsNaN (_n : Int) : Bool := false

/-- The `Name()` of a schema type: leaf types (scalar, enum, input object)
have their non-empty name; per the spec (§3, §4.3) the wrapper types List
and NonNull have the empty name, which is how `isValidInputValue` detects a
wrapper under a NonNull. -/
def typeName : InputType → String
  | .scalar n _ _ => n
  | .enum n _ _ => n
  | .inputObject n _ => n
  | .list _ => ""
  | .nonNull _ => ""

/-- Byte-order comparison of character lists, the order `sort.Strings` uses
(for the ASCII names in this subsystem, code-point order and byte order
agree). -/
def charListLe : List Char → List Char → Bool
  | [], _ => true
  | _ :: _, [] => false
  | a :: as, b :: bs =>
      if a.toNat < b.toNat then true
      else if b.toNat < a.toNat then false
      else charListLe as bs

/-- Lexicographic order on strings (the order of `sort.Strings`). -/
def strLe (a b : String) : Bool := charListLe a.data b.data

/-- Insert a string into a sorted list (helper of `sortStrings`). -/
def insertString (s : String) : List String → List String
  | [] => [s]
  | t :: ts => if strLe s t then s :: t :: ts else t :: insertString s ts

/-- Sort a list of strings lexicographically (`sort.Strings`; any correct
sort yields the same result on the duplicate-free key sets the source
sorts, since the order is total and antisymmetric). -/
def sortStrings : List String → List String
  | [] => []
  | s :: ss => insertString s (sortStrings ss)

/-- Insert a rendered key/value pair into a list sorted by key (helper of
`reprValue` for Go's sorted map printing). -/
def insertKeyed (p : String × String) : List (String × String) → List (String × String)
  | [] => [p]
  | q :: qs => if strLe p.1 q.1 then p :: q :: qs else q :: insertKeyed p qs

/-- Sort rendered key/value pairs by key (Go `fmt` prints maps with sorted
keys). -/
def sortKeyed : List (String × String) → List (String × String)
  | [] => []
  | p :: ps => insertKeyed p (sortKeyed ps)

/-- Go `fmt` default formatting (`%v`) of a runtime value, used by the
validator's scalar/enum diagnostics: `<nil>` for nil, `true`/`false`,
decimal integers, the raw string, space-separated `[...]` for slices and
key-sorted `map[k:v ...]` for maps.  The textual form of a finite float is
not modelled (no claim depends on it); NaN prints as `NaN`. -/
def reprValue : Value → String
  | .null => "<nil>"
  | .bool b => if b then "true" else "false"
  | .int n => toString n
  | .float nan => if nan then "NaN" else "<float>"
  | .str s => s
  | .list xs => "[" ++ String.intercalate " " (xs.attach.map (fun x => reprValue x.1)) ++ "]"
  | .obj m =>
      let rendered := m.attach.map (fun p => (p.1.1, reprValue p.1.2))
      "map[" ++ String.intercalate " " ((sortKeyed rendered).map (fun q => q.1 ++ ":" ++ q.2)) ++ "]"
termination_by v => sizeOf v
decreasing_by
  · have h := List.sizeOf_lt_of_mem x.2
    simp only [Value.list.sizeOf_spec]
    omega
  · obtain ⟨⟨a, b⟩, hp⟩ := p
    have h := List.sizeOf_lt_of_mem hp
    simp only [Prod.mk.sizeOf_spec] at h
    simp only [Value.obj.sizeOf_spec]
    omega

/-- Escape a string for JSON output (quotation marks and backslashes; the
inputs exercised here contain neither). -/
def jsonEscape (s : String) : String :=
  s.foldl (fun acc c =>
    acc ++ (if c = '\\' then "\\\\" else if c = '"' then "\\\"" else String.singleton c)) ""

/-- Modelled from the spec and the Go standard library: `json.Marshal` of a
runtime value, used only to render the offending input inside the
"got invalid value" diagnostic.  `none` models a marshalling error (NaN is
not representable in JSON), in which case the binder renders the empty
string.  Go sorts map keys in JSON output. -/
def jsonRepr : Value → Option String
  | .null => some "null"
  | .bool b => some (if b then "true" else "false")
  | .int n => some (toString n)
  | .float nan => if nan then none else some "<float>"
  | .str s => some ("\"" ++ jsonEscape s ++ "\"")
  | .list xs =>
      (xs.attach.mapM (fun x => jsonRepr x.1)).map
        (fun rs => "[" ++ String.intercalate "," rs ++ "]")
  | .obj m =>
      (m.attach.mapM (fun p => (jsonRepr p.1.2).map (fun r => (p.1.1, r)))).map
        (fun rs => "\x7b" ++ String.intercalate ","
          ((sortKeyed rs).map (fun q => "\"" ++ jsonEscape q.1 ++ "\":" ++ q.2)) ++ "\x7d")
termination_by v => sizeOf v
decreasing_by
  · have h := List.sizeOf_lt_of_mem x.2
    simp only [Value.list.sizeOf_spec]
    omega
  · obtain ⟨⟨a, b⟩, hp⟩ := p
    have h := List.sizeOf_lt_of_mem hp
    simp only [Prod.mk.sizeOf_spec] at h
    simp only [Value.obj.sizeOf_spec]
    omega

theorem lookupField_mem {fields : List (String × InputType × Value)} {k : String}
    {fd : InputType × Value} (h : lookupField fields k = some fd) :
    (k, fd.1, fd.2) ∈ fields := by
  induction fields with
  | nil => simp [lookupField] at h
  | cons hd tl ih =>
    obtain ⟨n, t, d⟩ := hd
    simp only [lookupField] at h
    split at h
    · simp_all
    · exact List.mem_cons_of_mem _ (ih h)

theorem sizeOf_lt_of_mem_fields {nm : String} {fields : List (String × InputType × Value)}
    {k : String} {t : InputType} {d : Value} (h : (k, t, d) ∈ fields) :
    sizeOf t < sizeOf (InputType.inputObject nm fields) := by
  have h1 : sizeOf (k, t, d) < sizeOf fields := List.sizeOf_lt_of_mem h
  simp only [Prod.mk.sizeOf_spec] at h1
  simp only [InputType.inputObject.sizeOf_spec]
  omega

/-- `isValidInputValue` (alias `isValidJSValue` in the source): decide
whether a runtime value is accepted for a type, returning path-qualified
diagnostic messages.  NonNull rejects nullish values (naming the inner type
when it has a name); nullish values pass any nullable type; a sequence
under a list type is validated per element, each sub-message prefixed with
the 1-based index the sub-message has in its element's message list
(`idx+1` over `range messages` in the source); a non-sequence under a list
type is validated against the item type; an input object sorts defined and
provided field names, reports unknown provided fields first, then the
defined fields' sub-messages; scalars and enums accept a value iff
`ParseValue` returns a non-nullish result. -/
def isValidInputValue (value : Value) (ttype : InputType) : Bool × List String :=
  match ttype with
  | .nonNull inner =>
      if isNullish value then
        if typeName inner ≠ "" then
          (false, ["Expected \"" ++ typeName inner ++ "!\", found null."])
        else
          (false, ["Expected non-null value, found null."])
      else
        isValidInputValue value inner
  | .list itemType =>
      if isNullish value then (true, []) else
      match value with
      | .list xs =>
          let messagesReduce := xs.flatMap (fun x =>
            ((isValidInputValue x itemType).2).enum.map
              (fun p => "In element #" ++ toString (p.1 + 1) ++ ": " ++ p.2))
          (messagesReduce.isEmpty, messagesReduce)
      | _ => isValidInputValue value itemType
  | .inputObject nm fields =>
      if isNullish value then (true, []) else
      match value with
      | .obj valueMap =>
          let fieldNames := sortStrings (fields.map Prod.fst)
          let valueMapFieldNames := sortStrings (valueMap.map Prod.fst)
          let unknownMsgs := valueMapFieldNames.filterMap (fun fn =>
            if (lookupField fields fn).isSome then none
            else some ("In field \"" ++ fn ++ "\": Unknown field."))
          let fieldMsgs := fieldNames.flatMap (fun fn =>
            match hf : lookupField fields fn with
            | some fd =>
                ((isValidInputValue ((lookupVal valueMap fn).getD .null) fd.1).2).map
                  (fun m => "In field \"" ++ fn ++ "\": " ++ m)
            | none => [])
          let messagesReduce := unknownMsgs ++ fieldMsgs
          (messagesReduce.isEmpty, messagesReduce)
      | _ => (false, ["Expected \"" ++ nm ++ "\", found not an object."])
  | .scalar nm parseValue _ =>
      if isNullish value then (true, []) else
      if isNullish (parseValue value) then
        (false, ["Expected type \"" ++ nm ++ "\", found \"" ++ reprValue value ++ "\"."])
      else (true, [])
  | .enum nm parseValue _ =>
      if isNullish value then (true, []) else
      if isNullish (parseValue value) then
        (false, ["Expected type \"" ++ nm ++ "\", found \"" ++ reprValue value ++ "\"."])
      else (true, [])
termination_by sizeOf ttype
decreasing_by
  · simp
  · simp
  · simp
  · exact sizeOf_lt_of_mem_fields (lookupField_mem hf)

/-- `coerceValue`: coerce a runtime value to the canonical representation
of a type.  NonNull unwraps; nullish values coerce to nil; a sequence under
a list type coerces elementwise (keeping positions), a non-sequence becomes
a one-element sequence; an input object coerces each defined field's
provided value (a non-mapping input counts as an empty mapping), falls back
to the field default when the coerced value is nullish, and includes the
field iff the final value is non-nullish; scalars and enums return the
`ParseValue` result when non-nullish, else nil. -/
def coerceValue (ttype : InputType) (value : Value) : Value :=
  match ttype with
  | .nonNull inner => coerceValue inner value
  | .list itemType =>
      if isNullish value then .null else
      match value with
      | .list xs => Value.list (xs.map (fun x => coerceValue itemType x))
      | _ => Value.list [coerceValue itemType value]
  | .inputObject _ fields =>
      if isNullish value then .null else
      let valueMap := match value with | .obj m => m | _ => []
      Value.obj ((fields.map Prod.fst).filterMap (fun fieldName =>
        match hf : lookupField fields fieldName with
        | some fd =>
            let fieldValue := coerceValue fd.1 ((lookupVal valueMap fieldName).getD .null)
            let fieldValue2 := if isNullish fieldValue then fd.2 else fieldValue
            if isNullish fieldValue2 then none else some (fieldName, fieldValue2)
        | none => none))
  | .scalar _ parseValue _ =>
      if isNullish value then .null else
      let parsed := parseValue value
      if isNullish parsed then .null else parsed
  | .enum _ parseValue _ =>
      if isNullish value then .null else
      let parsed := parseValue value
      if isNullish parsed then .null else parsed
termination_by sizeOf ttype
decreasing_by
  · simp
  · simp
  · simp
  · exact sizeOf_lt_of_mem_fields (lookupField_mem hf)

/-- `typeFromAST`: resolve a type-reference AST against the schema,
preserving wrappers.  In the source a missing named type propagates as a
nil/non-input type that `getVariableValue` then rejects; the model folds
both outcomes into `none` (see `Schema`). -/
def typeFromAST (schema : Schema) : TypeAst → Option InputType
  | .list inner => (typeFromAST schema inner).map InputType.list
  | .nonNull inner => (typeFromAST schema inner).map InputType.nonNull
  | .named name => schemaType schema (name.getD "")

/-- Modelled from the spec: the type printer consumed by the binder's
diagnostics (`printer.Print` on a type-reference AST, §6), producing the
canonical GraphQL source form, e.g. `[String!]!`. -/
def printType : TypeAst → String
  | .named name => name.getD ""
  | .list inner => "[" ++ printType inner ++ "]"
  | .nonNull inner => printType inner ++ "!"

/-- Build the name-keyed lookup of an object literal's fields
(`fieldASTs[of.Name.Value] = of`): nil fields and nil names are skipped,
later entries overwrite earlier ones. -/
def lookupLastAstField (ofields : List (Option String × AstValue)) (k : String) : Option AstValue :=
  ofields.foldl (fun acc f =>
    match f.1 with
    | some n => if n = k then some f.2 else acc
    | none => acc) none

/-- `valueFromAST`: produce a runtime value from a literal value AST under
a type.  An absent AST is nil; a Variable node returns the bound variable
value without rechecking its type (nil when the variables map is nil or the
name missing); otherwise NonNull unwraps, a ListValue under a list type
evaluates per element while any other node is wrapped as a one-element
sequence, an ObjectValue under an input object fills each defined field
from the matching field AST or the field default and keeps non-nullish
results (any other node is nil), and scalars/enums delegate to
`ParseLiteral`. -/
def valueFromAST (valueAST : Option AstValue) (ttype : InputType)
    (vars : Option (List (String × Value))) : Value :=
  match valueAST with
  | none => Value.null
  | some (AstValue.«variable» name) =>
      match name, vars with
      | some n, some varMap => (lookupVal varMap n).getD Value.null
      | _, _ => Value.null
  | some ast =>
      match ttype with
      | .nonNull inner => valueFromAST (some ast) inner vars
      | .list itemType =>
          match ast with
          | .listValue values =>
              Value.list (values.map (fun itemAST => valueFromAST (some itemAST) itemType vars))
          | _ => Value.list [valueFromAST (some ast) itemType vars]
      | .inputObject _ fields =>
          match ast with
          | .objectValue ofields =>
              Value.obj ((fields.map Prod.fst).filterMap (fun name =>
                match hf : lookupField fields name with
                | some fd =>
                    let value :=
                      match lookupLastAstField ofields name with
                      | some av => valueFromAST (some av) fd.1 vars
                      | none => fd.2
                    if isNullish value then none else some (name, value)
                | none => none))
          | _ => Value.null
      | .scalar _ _ parseLiteral => parseLiteral ast
      | .enum _ _ parseLiteral => parseLiteral ast
termination_by sizeOf ttype
decreasing_by
  · simp
  · simp
  · simp
  · exact sizeOf_lt_of_mem_fields (lookupField_mem hf)

/-- `getVariableValue`: given a variable definition and a raw input, return
the bound value or the binding error.  The declared type must resolve to an
input type; a valid nullish input with a default-value literal evaluates
the default (with an empty variables map), any other valid input is
coerced; an invalid nullish input is "was not provided", an invalid
non-nullish input is "got invalid value" with the JSON of the input and the
newline-joined validator messages.  (The source also returns `""` as the
value alongside each error; no caller uses it.) -/
def getVariableValue (schema : Schema) (definitionAST : VariableDefinition)
    (input : Value) : Except String Value :=
  let name := definitionAST.varName.getD ""
  match typeFromAST schema definitionAST.type with
  | none =>
      .error ("Variable \"$" ++ name ++ "\" expected value of type \"" ++
        printType definitionAST.type ++ "\" which cannot be used as an input type.")
  | some ttype =>
      let r := isValidInputValue input ttype
      if r.1 then
        if isNullish input then
          match definitionAST.defaultValue with
          | some dv => .ok (valueFromAST (some dv) ttype (some []))
          | none => .ok (coerceValue ttype input)
        else .ok (coerceValue ttype input)
      else if isNullish input then
        .error ("Variable \"$" ++ name ++ "\" of required type \"" ++
          printType definitionAST.type ++ "\" was not provided.")
      else
        let inputStr := (jsonRepr input).getD ""
        let messagesStr := if r.2.length > 0 then "\n" ++ String.intercalate "\n" r.2 else ""
        .error ("Variable \"$" ++ name ++ "\" got invalid value " ++ inputStr ++ "." ++ messagesStr)

/-- Loop of `getVariableValues`: process definitions in order, skipping
malformed ones, stopping at the first error (the partial map built so far
is returned alongside the error, as in the source). -/
def getVariableValuesLoop (schema : Schema) (inputs : List (String × Value)) :
    List VariableDefinition → List (String × Value) → List (String × Value) × Option String
  | [], values => (values, none)
  | defAST :: rest, values =>
      match defAST.varName with
      | none => getVariableValuesLoop schema inputs rest values
      | some varName =>
          match getVariableValue schema defAST ((lookupVal inputs varName).getD .null) with
          | .error e => (values, some e)
          | .ok v => getVariableValuesLoop schema inputs rest (mapInsert values varName v)

/-- `getVariableValues`: bind all declared variables from the raw input
map.  Only declared names are consulted in the input map; the result pairs
the value map with the first binding error, if any. -/
def getVariableValues (schema : Schema) (definitionASTs : List VariableDefinition)
    (inputs : List (String × Value)) : List (String × Value) × Option String :=
  getVariableValuesLoop schema inputs definitionASTs []

/-- The name-keyed lookup of supplied argument AST nodes
(`argASTMap[argAST.Name.Value] = argAST`): unnamed nodes are skipped,
later entries overwrite earlier ones. -/
def lookupArgAst (argASTs : List AstArgument) (k : String) : Option AstArgument :=
  argASTs.foldl (fun acc a =>
    match a.name with
    | some n => if n = k then some a else acc
    | none => acc) none

/-- The AST value supplied for an argument name: the named node's value
when one was supplied (itself possibly nil), else nil. -/
def argSuppliedAst (argASTs : List AstArgument) (k : String) : Option AstValue :=
  match lookupArgAst argASTs k with
  | some a => a.value
  | none => none

/-- Body of the `getArgumentValues` loop for one argument definition:
evaluate the supplied AST value (nil when the argument was not supplied)
through `valueFromAST`, fall back to the definition's default when nullish,
and yield the result iff it is non-nullish (`none` means the argument is
left out of the result map). -/
def argBinding (argASTs : List AstArgument) (variableValues : Option (List (String × Value)))
    (argDef : Argument) : Option Value :=
  let tmp := valueFromAST (argSuppliedAst argASTs argDef.privateName) argDef.type variableValues
  let tmp2 := if isNullish tmp then argDef.defaultValue else tmp
  if isNullish tmp2 then none else some tmp2

/-- Loop of `getArgumentValues`: record each argument definition's binding
(`argBinding`) under its declared name when present. -/
def getArgumentValuesLoop (argASTs : List AstArgument)
    (variableValues : Option (List (String × Value))) :
    List Argument → List (String × Value) → List (String × Value)
  | [], results => results
  | argDef :: rest, results =>
      getArgumentValuesLoop argASTs variableValues rest
        (match argBinding argASTs variableValues argDef with
         | none => results
         | some v => mapInsert results argDef.privateName v)

/-- `getArgumentValues`: prepare the argument map from argument definitions
and supplied argument AST nodes; the operation is infallible (it returns a
map, never an error). -/
def getArgumentValues (argDefs : List Argument) (argASTs : List AstArgument)
    (variableValues : Option (List (String × Value))) : List (String × Value) :=
  getArgumentValuesLoop argASTs variableValues argDefs []

/-- Modelled from the spec: the built-in `String` scalar's `ParseValue`
(standard coercer, §8).  Scenario 4 of the spec fixes its behaviour on
non-strings: the number `1` is rejected (`Expected type "String", found
"1".`), so non-string inputs coerce to the absent sentinel. -/
def stringParseValue : Value → Value
  | .str s => .str s
  | _ => .null

/-- Modelled from the spec: the built-in `String` scalar's `ParseLiteral`:
a StringValue literal yields its string, anything else the absent
sentinel. -/
def stringParseLiteral : AstValue → Value
  | .stringValue s => .str s
  | _ => .null

/-- Modelled from the spec: the built-in `String` scalar (§8). -/
def stringScalar : InputType := .scalar "String" stringParseValue stringParseLiteral

/-- Modelled from the spec: the built-in `Boolean` scalar's `ParseValue`. -/
def booleanParseValue : Value → Value
  | .bool b => .bool b
  | _ => .null

/-- Modelled from the spec: the built-in `Boolean` scalar's
`ParseLiteral`. -/
def booleanParseLiteral : AstValue → Value
  | .booleanValue b => .bool b
  | _ => .null

/-- Modelled from the spec: the built-in `Boolean` scalar (§8). -/
def booleanScalar : InputType := .scalar "Boolean" booleanParseValue booleanParseLiteral

/-- The field list of the spec's end-to-end input object
`input Complex { a: String = "foo", b: [String] }`. -/
def complexFields : List (String × InputType × Value) :=
  [("a", stringScalar, Value.str "foo"), ("b", InputType.list stringScalar, Value.null)]

/-- The spec's end-to-end input object type `Complex`. -/
def complexType : InputType := .inputObject "Complex" complexFields

/-- The schema used by the spec's end-to-end scenarios. -/
def testSchema : Schema :=
  [("String", stringScalar), ("Boolean", booleanScalar), ("Complex", complexType)]

theorem charListLe_total : ∀ (a b : List Char), charListLe a b = true ∨ charListLe b a = true
  | [], _ => Or.inl rfl
  | _ :: _, [] => Or.inr rfl
  | a :: as, b :: bs => by
      simp only [charListLe]
      rcases Nat.lt_trichotomy a.toNat b.toNat with h | h | h
      · left; simp [h]
      · have h2 : ¬ a.toNat < b.toNat := by omega
        have h3 : ¬ b.toNat < a.toNat := by omega
        simp only [h2, h3, if_false, if_neg, ite_false]
        simpa using charListLe_total as bs
      · right; simp [h]

theorem charListLe_trans : ∀ (a b c : List Char),
    charListLe a b = true → charListLe b c = true → charListLe a c = true
  | [], _, _, _, _ => rfl
  | _ :: _, [], _, h1, _ => by simp [charListLe] at h1
  | _ :: _, _ :: _, [], _, h2 => by simp [charListLe] at h2
  | a :: as, b :: bs, c :: cs, h1, h2 => by
      simp only [charListLe] at h1 h2 ⊢
      by_cases hab : a.toNat < b.toNat
      · by_cases hbc : b.toNat < c.toNat
        · have hac : a.toNat < c.toNat := Nat.lt_trans hab hbc
          simp [hac]
        · by_cases hcb : c.toNat < b.toNat
          · simp [hbc, hcb] at h2
          · have hac : a.toNat < c.toNat := by omega
            simp [hac]
      · by_cases hba : b.toNat < a.toNat
        · simp [hab, hba] at h1
        · simp only [hab, hba, if_false, ite_false, if_neg] at h1
          by_cases hbc : b.toNat < c.toNat
          · have hac : a.toNat < c.toNat := by omega
            simp [hac]
          · by_cases hcb : c.toNat < b.toNat
            · simp [hbc, hcb] at h2
            · simp only [hbc, hcb, if_false, ite_false, if_neg] at h2
              have h3 : ¬ a.toNat < c.toNat := by omega
              have h4 : ¬ c.toNat < a.toNat := by omega
              simp only [h3, h4, if_false, ite_false, if_neg]
              exact charListLe_trans as bs cs (by simpa using h1) (by simpa using h2)

theorem strLe_total (a b : String) : strLe a b = true ∨ strLe b a = true :=
  charListLe_total a.data b.data

theorem strLe_trans {a b c : String} (h1 : strLe a b = true) (h2 : strLe b c = true) :
    strLe a c = true :=
  charListLe_trans a.data b.data c.data h1 h2

theorem mem_insertString {a s : String} : ∀ {l : List String},
    a ∈ insertString s l ↔ a = s ∨ a ∈ l := by
  intro l
  induction l with
  | nil => simp [insertString]
  | cons t ts ih =>
    simp only [insertString]
    split
    · simp [List.mem_cons]
    · simp only [List.mem_cons, ih]
      tauto

theorem pairwise_insertString {s : String} : ∀ {l : List String},
    l.Pairwise (fun a b => strLe a b = true) →
    (insertString s l).Pairwise (fun a b => strLe a b = true) := by
  intro l
  induction l with
  | nil => simp [insertString]
  | cons t ts ih =>
    intro h
    rcases List.pairwise_cons.mp h with ⟨ht, hts⟩
    simp only [insertString]
    split
    · rename_i hst
      refine List.pairwise_cons.mpr ⟨?_, h⟩
      intro b hb
      rcases List.mem_cons.mp hb with rfl | hb2
      · exact hst
      · exact strLe_trans hst (ht b hb2)
    · rename_i hst
      have hts' : strLe t s = true := by
        rcases strLe_total s t with h1 | h1
        · exact absurd h1 hst
        · exact h1
      refine List.pairwise_cons.mpr ⟨?_, ih hts⟩
      intro b hb
      rcases mem_insertString.mp hb with rfl | hb2
      · exact hts'
      · exact ht b hb2

theorem sorted_sortStrings : ∀ (l : List String),
    (sortStrings l).Pairwise (fun a b => strLe a b = true)
  | [] => by simp [sortStrings]
  | s :: ss => by
      simp only [sortStrings]
      exact pairwise_insertString (sorted_sortStrings ss)

theorem coerceValue_nullish : ∀ (t : InputType) (v : Value), isNullish v = true →
    coerceValue t v = Value.null
  | .scalar n pv pl, v, h => by rw [coerceValue.eq_def]; simp [h]
  | .enum n pv pl, v, h => by rw [coerceValue.eq_def]; simp [h]
  | .list t, v, h => by rw [coerceValue.eq_def]; simp [h]
  | .inputObject n f, v, h => by rw [coerceValue.eq_def]; simp [h]
  | .nonNull inner, v, h => by
      have ih := coerceValue_nullish inner v h
      rw [coerceValue.eq_def]
      exact ih

theorem coerceValue_list_seq (t : InputType) (xs : List Value) :
    coerceValue (InputType.list t) (Value.list xs) =
      Value.list (xs.map (fun x => coerceValue t x)) := by
  rw [coerceValue.eq_def]
  simp [isNullish]

theorem filterMap_congr_fun {α β : Type} {f g : α → Option β} :
    ∀ (l : List α), (∀ a ∈ l, f a = g a) → l.filterMap f = l.filterMap g
  | [], _ => rfl
  | a :: l, h => by
      have h1 := h a (List.mem_cons_self a l)
      have h2 := filterMap_congr_fun l (fun x hx => h x (List.mem_cons_of_mem a hx))
      simp [List.filterMap_cons, h1, h2]

theorem lookupVal_keyed_filterMap_not_mem (g : String → Option Value) :
    ∀ (names : List String) {k : String}, k ∉ names →
      lookupVal (names.filterMap (fun n => (g n).map (fun v => (n, v)))) k = none
  | [], k, _ => rfl
  | n :: ns, k, h => by
      have hkn : n ≠ k := fun he => h (he ▸ List.mem_cons_self n ns)
      have hrest := lookupVal_keyed_filterMap_not_mem g ns
        (fun hk => h (List.mem_cons_of_mem n hk))
      cases hg : g n with
      | none => simpa [List.filterMap_cons, hg] using hrest
      | some v => simpa [List.filterMap_cons, hg, lookupVal, hkn] using hrest

theorem lookupVal_keyed_filterMap (g : String → Option Value) :
    ∀ (names : List String), names.Nodup → ∀ {k : String}, k ∈ names →
      lookupVal (names.filterMap (fun n => (g n).map (fun v => (n, v)))) k = g k
  | [], _, k, hk => absurd hk (List.not_mem_nil k)
  | n :: ns, hnd, k, hk => by
      have hnd1 : n ∉ ns := (List.nodup_cons.mp hnd).1
      have hnd2 : ns.Nodup := (List.nodup_cons.mp hnd).2
      rcases List.mem_cons.mp hk with rfl | hk2
      · cases hg : g k with
        | none =>
            simpa [List.filterMap_cons, hg] using
              lookupVal_keyed_filterMap_not_mem g ns hnd1
        | some v => simp [List.filterMap_cons, hg, lookupVal]
      · have hkn : n ≠ k := fun he => hnd1 (he ▸ hk2)
        cases hg : g n with
        | none =>
            simpa [List.filterMap_cons, hg] using
              lookupVal_keyed_filterMap g ns hnd2 hk2
        | some v =>
            simpa [List.filterMap_cons, hg, lookupVal, hkn] using
              lookupVal_keyed_filterMap g ns hnd2 hk2

theorem lookupVal_map_update {k : String} {v : Value} :
    ∀ (m : List (String × Value)),
      lookupVal (m.map (fun p => if p.1 = k then (k, v) else p)) k =
        (if m.any (fun p => p.1 = k) then some v else none)
  | [] => rfl
  | (n, w) :: rest => by
      by_cases hn : n = k
      · subst hn
        rw [List.map_cons, if_pos rfl]
        simp [lookupVal]
      · rw [List.map_cons, if_neg hn, List.any_cons]
        have hd : decide (n = k) = false := by simp [hn]
        rw [hd, Bool.false_or]
        simp [lookupVal, hn, lookupVal_map_update rest]

theorem lookupVal_append_single {k : String} {v : Value} :
    ∀ (m : List (String × Value)), m.any (fun p => p.1 = k) = false →
      lookupVal (m ++ [(k, v)]) k = some v
  | [], _ => by simp [lookupVal]
  | (n, w) :: rest, h => by
      simp only [List.any_cons, Bool.or_eq_false_iff] at h
      obtain ⟨h1, h2⟩ := h
      have h1n : ¬ n = k := by simpa using h1
      simp [lookupVal, h1n, lookupVal_append_single rest h2]

theorem lookupVal_mapInsert_self (m : List (String × Value)) (k : String) (v : Value) :
    lookupVal (mapInsert m k v) k = some v := by
  unfold mapInsert
  split
  · rename_i h
    simp [lookupVal_map_update m, h]
  · rename_i h
    exact lookupVal_append_single m (Bool.eq_false_iff.mpr h)

theorem lookupVal_map_update_ne {k k2 : String} {v : Value} (hne : k ≠ k2) :
    ∀ (m : List (String × Value)),
      lookupVal (m.map (fun p => if p.1 = k then (k, v) else p)) k2 = lookupVal m k2
  | [] => rfl
  | (n, w) :: rest => by
      by_cases hn : n = k
      · subst hn
        rw [List.map_cons, if_pos rfl]
        simp [lookupVal, hne, lookupVal_map_update_ne hne rest]
      · rw [List.map_cons, if_neg hn]
        by_cases hn2 : n = k2
        · simp [lookupVal, hn2]
        · simp [lookupVal, hn2, lookupVal_map_update_ne hne rest]

theorem lookupVal_append_single_ne {k k2 : String} {v : Value} (hne : k ≠ k2) :
    ∀ (m : List (String × Value)),
      lookupVal (m ++ [(k, v)]) k2 = lookupVal m k2
  | [] => by simp [lookupVal, hne]
  | (n, w) :: rest => by
      by_cases hn2 : n = k2
      · simp [lookupVal, hn2]
      · simp [lookupVal, hn2, lookupVal_append_single_ne hne rest]

theorem lookupVal_mapInsert_ne {k k2 : String} (hne : k ≠ k2) (m : List (String × Value)) (v : Value) :
    lookupVal (mapInsert m k v) k2 = lookupVal m k2 := by
  unfold mapInsert
  split
  · exact lookupVal_map_update_ne hne m
  · exact lookupVal_append_single_ne hne m

theorem mem_mapInsert {m : List (String × Value)} {k : String} {v : Value} {p : String × Value}
    (h : p ∈ mapInsert m k v) : p ∈ m ∨ p.1 = k := by
  unfold mapInsert at h
  split at h
  · rcases List.mem_map.mp h with ⟨q, hq, heq⟩
    by_cases hqk : q.1 = k
    · rw [if_pos hqk] at heq
      right
      rw [← heq]
    · rw [if_neg hqk] at heq
      left
      rw [← heq]
      exact hq
  · rcases List.mem_append.mp h with h1 | h1
    · exact Or.inl h1
    · right
      have : p = (k, v) := by simpa using h1
      rw [this]

theorem getVariableValuesLoop_mem (schema : Schema) (inputs : List (String × Value)) :
    ∀ (defs : List VariableDefinition) (values : List (String × Value)) {k : String} {v : Value},
      (k, v) ∈ (getVariableValuesLoop schema inputs defs values).1 →
      (k, v) ∈ values ∨ ∃ d ∈ defs, d.varName = some k
  | [], values, k, v, h => Or.inl (by simpa [getVariableValuesLoop] using h)
  | d :: rest, values, k, v, h => by
      simp only [getVariableValuesLoop] at h
      cases hn : d.varName with
      | none =>
          simp only [hn] at h
          rcases getVariableValuesLoop_mem schema inputs rest values h with h1 | ⟨d2, hd2, hd3⟩
          · exact Or.inl h1
          · exact Or.inr ⟨d2, List.mem_cons_of_mem d hd2, hd3⟩
      | some n =>
          simp only [hn] at h
          cases hg : getVariableValue schema d ((lookupVal inputs n).getD Value.null) with
          | error e =>
              simp only [hg] at h
              exact Or.inl h
          | ok v2 =>
              simp only [hg] at h
              rcases getVariableValuesLoop_mem schema inputs rest (mapInsert values n v2) h with
                h1 | ⟨d2, hd2, hd3⟩
              · rcases mem_mapInsert h1 with h2 | h2
                · exact Or.inl h2
                · exact Or.inr ⟨d, List.mem_cons_self d rest,
                    by rw [hn]; exact congrArg some (show n = k from h2.symm)⟩
              · exact Or.inr ⟨d2, List.mem_cons_of_mem d hd2, hd3⟩

theorem getVariableValuesLoop_inputs_congr (schema : Schema)
    {inputs inputs2 : List (String × Value)} :
    ∀ (defs : List VariableDefinition) (values : List (String × Value)),
      (∀ d ∈ defs, ∀ n, d.varName = some n → lookupVal inputs n = lookupVal inputs2 n) →
      getVariableValuesLoop schema inputs defs values = getVariableValuesLoop schema inputs2 defs values
  | [], values, _ => rfl
  | d :: rest, values, h => by
      have hrest := fun d2 hd2 => h d2 (List.mem_cons_of_mem d hd2)
      simp only [getVariableValuesLoop]
      cases hn : d.varName with
      | none => exact getVariableValuesLoop_inputs_congr schema rest values hrest
      | some n =>
          simp only [h d (List.mem_cons_self d rest) n hn]
          cases hG : getVariableValue schema d ((lookupVal inputs2 n).getD Value.null) with
          | error e => rfl
          | ok v2 => exact getVariableValuesLoop_inputs_congr schema rest (mapInsert values n v2) hrest

theorem getArgumentValuesLoop_lookup_stable (argASTs : List AstArgument)
    (vars : Option (List (String × Value))) :
    ∀ (defs : List Argument) (results : List (String × Value)) {k : String},
      (∀ d ∈ defs, d.privateName ≠ k) →
      lookupVal (getArgumentValuesLoop argASTs vars defs results) k = lookupVal results k
  | [], results, k, _ => rfl
  | d :: rest, results, k, h => by
      have hd := h d (List.mem_cons_self d rest)
      have hrest := fun d2 hd2 => h d2 (List.mem_cons_of_mem d hd2)
      simp only [getArgumentValuesLoop]
      rw [getArgumentValuesLoop_lookup_stable argASTs vars rest _ hrest]
      cases argBinding argASTs vars d with
      | none => rfl
      | some v => exact lookupVal_mapInsert_ne hd results v

theorem getArgumentValuesLoop_lookup (argASTs : List AstArgument)
    (vars : Option (List (String × Value))) :
    ∀ (defs : List Argument) (results : List (String × Value)) {d : Argument},
      d ∈ defs → (defs.map Argument.privateName).Nodup →
      lookupVal results d.privateName = none →
      lookupVal (getArgumentValuesLoop argASTs vars defs results) d.privateName =
        argBinding argASTs vars d
  | [], _, d, hmem, _, _ => absurd hmem (List.not_mem_nil d)
  | d2 :: rest, results, d, hmem, hnodup, hres => by
      rw [List.map_cons] at hnodup
      have hnodup1 : d2.privateName ∉ rest.map Argument.privateName := (List.nodup_cons.mp hnodup).1
      have hnodup2 : (rest.map Argument.privateName).Nodup := (List.nodup_cons.mp hnodup).2
      rcases List.mem_cons.mp hmem with rfl | hmem2
      · simp only [getArgumentValuesLoop]
        rw [getArgumentValuesLoop_lookup_stable argASTs vars rest _
          (fun d3 hd3 he => hnodup1 (by rw [← he]; exact List.mem_map_of_mem Argument.privateName hd3))]
        cases hb : argBinding argASTs vars d with
        | none => simpa using hres
        | some v => simp [lookupVal_mapInsert_self]
      · have hne : d2.privateName ≠ d.privateName := fun he =>
          hnodup1 (he ▸ List.mem_map_of_mem Argument.privateName hmem2)
        simp only [getArgumentValuesLoop]
        refine getArgumentValuesLoop_lookup argASTs vars rest _ hmem2 hnodup2 ?_
        cases argBinding argASTs vars d2 with
        | none => exact hres
        | some v => rw [lookupVal_mapInsert_ne hne results v]; exact hres

theorem getArgumentValuesLoop_mem (argASTs : List AstArgument)
    (vars : Option (List (String × Value))) :
    ∀ (defs : List Argument) (results : List (String × Value)) {p : String × Value},
      p ∈ getArgumentValuesLoop argASTs vars defs results →
      p ∈ results ∨ ∃ d ∈ defs, d.privateName = p.1
  | [], results, p, h => Or.inl (by simpa [getArgumentValuesLoop] using h)
  | d :: rest, results, p, h => by
      simp only [getArgumentValuesLoop] at h
      rcases getArgumentValuesLoop_mem argASTs vars rest _ h with h1 | ⟨d2, hd2, hd3⟩
      · cases hb : argBinding argASTs vars d with
        | none =>
            rw [hb] at h1
            exact Or.inl h1
        | some v =>
            rw [hb] at h1
            rcases mem_mapInsert h1 with h2 | h2
            · exact Or.inl h2
            · exact Or.inr ⟨d, List.mem_cons_self d rest, h2.symm⟩
      · exact Or.inr ⟨d2, List.mem_cons_of_mem d hd2, hd3⟩

/-- The unknown-provided-field segment of the input-object validator's
message list: one message per provided field name that is not a defined
field, provided names taken in lexicographic order. -/
def unknownFieldMessages (fields : List (String × InputType × Value))
    (valueMap : List (String × Value)) : List String :=
  (sortStrings (valueMap.map Prod.fst)).filterMap (fun fn =>
    if (lookupField fields fn).isSome then none
    else some ("In field \"" ++ fn ++ "\": Unknown field."))

/-- The defined-field segment of the input-object validator's message list:
each defined field's sub-messages prefixed with the field name, fields
taken in lexicographic order of their names. -/
def definedFieldMessages (fields : List (String × InputType × Value))
    (valueMap : List (String × Value)) : List String :=
  (sortStrings (fields.map Prod.fst)).flatMap (fun fn =>
    match lookupField fields fn with
    | some fd =>
        ((isValidInputValue ((lookupVal valueMap fn).getD .null) fd.1).2).map
          (fun m => "In field \"" ++ fn ++ "\": " ++ m)
    | none => [])

/-- The per-element prefixing the list validator applies to one element's
message list: message number `idx` (1-based within that element's list)
gets the prefix `In element #idx: `. -/
def numberedElementMessages (messages : List String) : List String :=
  messages.enum.map (fun p => "In element #" ++ toString (p.1 + 1) ++ ": " ++ p.2)

/-- Whether a value is a one-element sequence (the spec's wording for the
result of the single-element wrapping rule). -/
def isOneElementSequence : Value → Bool
  | .list [_] => true
  | _ => false

/-- An input object whose field default (`"x"` for a field of list type) is
not a fixed point of coercion at the field's type. -/
def listDefaultObject : InputType :=
  .inputObject "D" [("b", InputType.list stringScalar, Value.str "x")]

/-- The body of `coerceValue`'s input-object loop for one defined field
name: coerce the provided value (nil when missing), substitute the field
default when the coerced value is nullish, and yield the keyed entry iff
the final value is non-nullish. -/
def coerceFieldStep (fields : List (String × InputType × Value))
    (valueMap : List (String × Value)) (fieldName : String) : Option (String × Value) :=
  match lookupField fields fieldName with
  | some fd =>
      let fieldValue := coerceValue fd.1 ((lookupVal valueMap fieldName).getD .null)
      let fieldValue2 := if isNullish fieldValue then fd.2 else fieldValue
      if isNullish fieldValue2 then none else some (fieldName, fieldValue2)
  | none => none

/-- The value part of `coerceFieldStep` (same computation without the
key). -/
def coerceFieldValue (fields : List (String × InputType × Value))
    (valueMap : List (String × Value)) (fieldName : String) : Option Value :=
  match lookupField fields fieldName with
  | some fd =>
      let fieldValue := coerceValue fd.1 ((lookupVal valueMap fieldName).getD .null)
      let fieldValue2 := if isNullish fieldValue then fd.2 else fieldValue
      if isNullish fieldValue2 then none else some fieldValue2
  | none => none

theorem coerceFieldStep_eq (fields : List (String × InputType × Value))
    (valueMap : List (String × Value)) (fn : String) :
    coerceFieldStep fields valueMap fn =
      (coerceFieldValue fields valueMap fn).map (fun v => (fn, v)) := by
  unfold coerceFieldStep coerceFieldValue
  cases lookupField fields fn with
  | none => rfl
  | some fd =>
      simp only []
      split <;> first | rfl | (split <;> rfl)

theorem coerceValue_inputObject (nm : String) (fields : List (String × InputType × Value))
    (valueMap : List (String × Value)) :
    coerceValue (InputType.inputObject nm fields) (Value.obj valueMap) =
      Value.obj ((fields.map Prod.fst).filterMap (coerceFieldStep fields valueMap)) := by
  rw [coerceValue.eq_def]
  simp only []
  rw [show isNullish (Value.obj valueMap) = false from rfl]
  rw [if_neg Bool.false_ne_true]
  congr 1
  refine filterMap_congr_fun (fields.map Prod.fst) (fun fn _ => ?_)
  cases hfn : lookupField fields fn with
  | none => simp [coerceFieldStep, hfn]
  | some fd => simp [coerceFieldStep, hfn]

theorem coerceValue_inputObject_lookup (nm : String)
    (fields : List (String × InputType × Value)) (valueMap : List (String × Value))
    {fname : String} (hnd : (fields.map Prod.fst).Nodup) (hmem : fname ∈ fields.map Prod.fst) :
    ∃ entries, coerceValue (InputType.inputObject nm fields) (Value.obj valueMap) = Value.obj entries
      ∧ lookupVal entries fname = coerceFieldValue fields valueMap fname := by
  refine ⟨(fields.map Prod.fst).filterMap (coerceFieldStep fields valueMap),
    coerceValue_inputObject nm fields valueMap, ?_⟩
  rw [filterMap_congr_fun (fields.map Prod.fst) (fun fn _ => coerceFieldStep_eq fields valueMap fn)]
  exact lookupVal_keyed_filterMap (coerceFieldValue fields valueMap) (fields.map Prod.fst) hnd hmem

theorem flatMap_congr_fun {α β : Type} {f g : α → List β} :
    ∀ (l : List α), (∀ a ∈ l, f a = g a) → l.flatMap f = l.flatMap g
  | [], _ => rfl
  | a :: l, h => by
      have h1 := h a (List.mem_cons_self a l)
      have h2 := flatMap_congr_fun l (fun x hx => h x (List.mem_cons_of_mem a hx))
      simp only [List.flatMap_cons, h1, h2]

theorem isValidInputValue_inputObject_messages (nm : String)
    (fields : List (String × InputType × Value)) (valueMap : List (String × Value)) :
    (isValidInputValue (Value.obj valueMap) (InputType.inputObject nm fields)).2 =
      unknownFieldMessages fields valueMap ++ definedFieldMessages fields valueMap := by
  rw [isValidInputValue.eq_def]
  simp only []
  rw [show isNullish (Value.obj valueMap) = false from rfl]
  rw [if_neg Bool.false_ne_true]
  simp only []
  congr 1
  refine flatMap_congr_fun (sortStrings (fields.map Prod.fst)) (fun fn _ => ?_)
  cases hfn : lookupField fields fn with
  | none => simp [definedFieldMessages, hfn]
  | some fd => simp [definedFieldMessages, hfn]

/-- C1 (amended): the input-object validator sorts both the defined field
names and the provided field names lexicographically, and its message list
is the unknown-provided-field segment (provided names in lexicographic
order) followed by the defined-field segment (defined names in
lexicographic order) — not one globally name-sorted list; in particular,
for Complex and input `{"a": 1, "c": true}` the message
`In field "c": Unknown field.` precedes
`In field "a": Expected type "String", found "1".`. -/
theorem c1_inputObject_message_order :
    (∀ (nm : String) (fields : List (String × InputType × Value)) (valueMap : List (String × Value)),
        (isValidInputValue (Value.obj valueMap) (InputType.inputObject nm fields)).2 =
          unknownFieldMessages fields valueMap ++ definedFieldMessages fields valueMap)
  ∧ (∀ l : List String, (sortStrings l).Pairwise (fun a b => strLe a b = true))
  ∧ (isValidInputValue (Value.obj [("a", Value.int 1), ("c", Value.bool true)]) complexType).2 =
      ["In field \"c\": Unknown field.",
       "In field \"a\": Expected type \"String\", found \"1\"."] := by
  refine ⟨isValidInputValue_inputObject_messages, sorted_sortStrings, ?_⟩
  simp [isValidInputValue, isNullish, complexType, complexFields, stringScalar,
    stringParseValue, sortStrings, insertString, strLe, charListLe, lookupField,
    lookupVal, reprValue]
  decide

/-- C1 fails as stated: at the claim's own example the validator returns
the unknown-field message for "c" before the message for "a", so the list
is not in lexicographic order of the offending field name. -/
theorem c1_counterexample :
    (isValidInputValue (Value.obj [("a", Value.int 1), ("c", Value.bool true)]) complexType).2 =
      ["In field \"c\": Unknown field.",
       "In field \"a\": Expected type \"String\", found \"1\"."]
    ∧ List.indexOf "In field \"c\": Unknown field."
        ["In field \"c\": Unknown field.",
         "In field \"a\": Expected type \"String\", found \"1\"."] <
      List.indexOf "In field \"a\": Expected type \"String\", found \"1\"."
        ["In field \"c\": Unknown field.",
         "In field \"a\": Expected type \"String\", found \"1\"."] := by
  constructor
  · simp [isValidInputValue, isNullish, complexType, complexFields, stringScalar,
      stringParseValue, sortStrings, insertString, strLe, charListLe, lookupField,
      lookupVal, reprValue]
    decide
  · decide

/-- C2 (amended): for a sequence under a list type, the validator
recurses per element and prefixes each failing element's sub-messages with
`In element #j: ` where `j` is the 1-based index of the sub-message within
that element's own message list (so the counter restarts at 1 for every
element and does not name the element's position); a non-sequence value
recurses directly into the item type with no prefix. -/
theorem c2_element_message_numbering :
    (∀ (itemType : InputType) (xs : List Value),
        (isValidInputValue (Value.list xs) (InputType.list itemType)).2 =
          xs.flatMap (fun x => numberedElementMessages (isValidInputValue x itemType).2))
  ∧ (∀ (itemType : InputType) (v : Value), isNullish v = false → (∀ ys, v ≠ Value.list ys) →
        isValidInputValue v (InputType.list itemType) = isValidInputValue v itemType)
  ∧ (isValidInputValue (Value.list [Value.int 5, Value.int 6]) (InputType.list stringScalar)).2 =
      ["In element #1: Expected type \"String\", found \"5\".",
       "In element #1: Expected type \"String\", found \"6\"."] := by
  refine ⟨fun itemType xs => ?_, fun itemType v h1 h2 => ?_, ?_⟩
  · rw [isValidInputValue.eq_def]
    simp only []
    rw [show isNullish (Value.list xs) = false from rfl]
    rw [if_neg Bool.false_ne_true]
    simp [numberedElementMessages]
  · rw [isValidInputValue.eq_def]
    cases v with
    | list ys => exact absurd rfl (h2 ys)
    | null => simp [isNullish] at h1
    | float nan =>
        simp only [isNullish] at h1
        subst h1
        simp [isNullish]
    | bool b => simp [isNullish]
    | int n => simp [isNullish]
    | str s => simp [isNullish]
    | obj m => simp [isNullish]
  · simp [isValidInputValue, isNullish, stringScalar, stringParseValue, reprValue,
      numberedElementMessages]
    decide

/-- Witness for C2 (amended), non-sequence clause: a plain string under
`[String]` is validated directly against `String`. -/
theorem c2_witness :
    isValidInputValue (Value.str "x") (InputType.list stringScalar) =
      isValidInputValue (Value.str "x") stringScalar :=
  c2_element_message_numbering.2.1 stringScalar (Value.str "x") rfl
    (fun ys h => Value.noConfusion h)

/-- C2 fails as stated: in the list [ "ok", 5 ] under [String] the failing
element is at position 2, but its message is prefixed `In element #1: `,
and no message with prefix `In element #2: ` is produced. -/
theorem c2_counterexample :
    (isValidInputValue (Value.list [Value.str "ok", Value.int 5]) (InputType.list stringScalar)).2 =
      ["In element #1: Expected type \"String\", found \"5\"."]
    ∧ "In element #2: Expected type \"String\", found \"5\"." ∉
        (["In element #1: Expected type \"String\", found \"5\"."] : List String) := by
  constructor
  · simp [isValidInputValue, isNullish, stringScalar, stringParseValue, reprValue]
    decide
  · decide

/-- C3: when the declared type resolves to an input type, the raw input
fails validation, and the input is nullish, the variable binder fails with
exactly `Variable "$<name>" of required type "<printed type>" was not
provided.` (the type printer is modelled from the spec, §6). -/
theorem c3_required_not_provided (schema : Schema) (d : VariableDefinition)
    (input : Value) (name : String) (ttype : InputType)
    (hname : d.varName = some name)
    (hty : typeFromAST schema d.type = some ttype)
    (hinvalid : (isValidInputValue input ttype).1 = false)
    (hnull : isNullish input = true) :
    getVariableValue schema d input =
      Except.error ("Variable \"$" ++ name ++ "\" of required type \"" ++
        printType d.type ++ "\" was not provided.") := by
  unfold getVariableValue
  rw [hname, hty]
  simp [hinvalid, hnull]

/-- Witness for C3: variable $v of declared type String! with absent
(nil) input yields exactly the claimed message. -/
theorem c3_witness :
    getVariableValue testSchema
        ⟨some "v", TypeAst.nonNull (TypeAst.named (some "String")), none⟩ Value.null =
      Except.error "Variable \"$v\" of required type \"String!\" was not provided." := by
  have h := c3_required_not_provided testSchema
    ⟨some "v", TypeAst.nonNull (TypeAst.named (some "String")), none⟩
    Value.null "v" (InputType.nonNull stringScalar) rfl rfl
    (by simp [isValidInputValue, isNullish, typeName, stringScalar]) rfl
  rw [h]
  simp only [Except.error.injEq]
  decide

/-- C4: `isNullish` is true exactly on the null/missing marker, the
floating-point NaN, and integers whose float cast the host reports as NaN
(there are none, `intCastIsNaN`); in particular the empty string and zero
are non-nullish. -/
theorem c4_isNullish_characterization :
    (∀ v : Value, isNullish v = true ↔
        (v = Value.null ∨ v = Value.float true ∨
          ∃ n : Int, v = Value.int n ∧ intCastIsNaN n = true))
    ∧ isNullish (Value.str "") = false ∧ isNullish (Value.int 0) = false := by
  refine ⟨fun v => ?_, rfl, rfl⟩
  cases v <;> simp [isNullish, intCastIsNaN]

/-- C5 (amended): in input-object coercion, an absent or nullish provided
field value yields the field default, and a present value whose coercion is
non-nullish yields the coerced value; when the coercion of a present
non-nullish value is nullish (a failed scalar parse), the default is layered
in instead of the coerced value (see the counterexample).  The concrete
conjunct is the spec's scenario: binding $v: Complex with input {} yields
{a: "foo"} with b omitted. -/
theorem c5_default_layering :
    (∀ (nm : String) (fields : List (String × InputType × Value)) (valueMap : List (String × Value))
        (fname : String) (ftype : InputType) (fdefault : Value),
        lookupField fields fname = some (ftype, fdefault) →
        (fields.map Prod.fst).Nodup →
        isNullish fdefault = false →
        ∃ entries,
          coerceValue (InputType.inputObject nm fields) (Value.obj valueMap) = Value.obj entries
          ∧ (isNullish ((lookupVal valueMap fname).getD Value.null) = true →
              lookupVal entries fname = some fdefault)
          ∧ (isNullish (coerceValue ftype ((lookupVal valueMap fname).getD Value.null)) = false →
              lookupVal entries fname =
                some (coerceValue ftype ((lookupVal valueMap fname).getD Value.null))))
  ∧ getVariableValue testSchema ⟨some "v", TypeAst.named (some "Complex"), none⟩ (Value.obj []) =
      Except.ok (Value.obj [("a", Value.str "foo")]) := by
  constructor
  · intro nm fields valueMap fname ftype fdefault hf hnd hdef
    have hmem : fname ∈ fields.map Prod.fst :=
      List.mem_map_of_mem Prod.fst (lookupField_mem hf)
    obtain ⟨entries, he, hl⟩ := coerceValue_inputObject_lookup nm fields valueMap hnd hmem
    refine ⟨entries, he, ?_, ?_⟩
    · intro hv
      rw [hl]
      simp only [coerceFieldValue, hf]
      rw [coerceValue_nullish ftype _ hv]
      simp [show isNullish Value.null = true from rfl, hdef]
    · intro hfv
      rw [hl]
      simp only [coerceFieldValue, hf]
      simp [hfv]
  · simp [getVariableValue, typeFromAST, schemaType, testSchema, printType,
      isValidInputValue, coerceValue, isNullish, complexType, complexFields,
      stringScalar, stringParseValue, sortStrings, insertString, strLe, charListLe,
      lookupField, lookupVal, reprValue]

/-- Witness for C5 (amended): for Complex's field a with input value "bar",
the present non-nullish clause applies. -/
theorem c5_witness :
    ∃ entries,
      coerceValue (InputType.inputObject "Complex" complexFields)
          (Value.obj [("a", Value.str "bar")]) = Value.obj entries
      ∧ (isNullish ((lookupVal [("a", Value.str "bar")] "a").getD Value.null) = true →
          lookupVal entries "a" = some (Value.str "foo"))
      ∧ (isNullish (coerceValue stringScalar ((lookupVal [("a", Value.str "bar")] "a").getD Value.null)) = false →
          lookupVal entries "a" =
            some (coerceValue stringScalar ((lookupVal [("a", Value.str "bar")] "a").getD Value.null))) :=
  c5_default_layering.1 "Complex" complexFields [("a", Value.str "bar")] "a" stringScalar
    (Value.str "foo") rfl (by decide) rfl

/-- C5 fails as stated: for Complex's field a (String, default "foo") the
present non-nullish input 1 does not yield "itself after coercion" — its
coercion is nil (String rejects 1) and the binder substitutes the default,
so the field is bound to "foo". -/
theorem c5_counterexample :
    coerceValue complexType (Value.obj [("a", Value.int 1)]) =
      Value.obj [("a", Value.str "foo")]
    ∧ coerceValue stringScalar (Value.int 1) = Value.null
    ∧ Value.str "foo" ≠ Value.null := by
  refine ⟨?_, ?_, by simp⟩
  · simp [coerceValue, complexType, complexFields, stringScalar, stringParseValue,
      isNullish, lookupField, lookupVal]
  · simp [coerceValue, stringScalar, stringParseValue, isNullish]

/-- C6 (amended): the single-element wrapping rule holds symmetrically for
non-nullish non-sequence runtime values in the coercer and for non-nil,
non-Variable, non-ListValue literals in the evaluator; a nullish value
under a list type coerces to nil, not to a one-element sequence (see the
counterexample). -/
theorem c6_single_element_wrapping :
    (∀ (t : InputType) (v : Value), isNullish v = false → (∀ ys, v ≠ Value.list ys) →
        coerceValue (InputType.list t) v = Value.list [coerceValue t v])
  ∧ (∀ (t : InputType) (ast : AstValue) (vars : Option (List (String × Value))),
        (∀ n, ast ≠ AstValue.«variable» n) → (∀ items, ast ≠ AstValue.listValue items) →
        valueFromAST (some ast) (InputType.list t) vars =
          Value.list [valueFromAST (some ast) t vars]) := by
  constructor
  · intro t v h1 h2
    rw [coerceValue.eq_def]
    cases v with
    | list ys => exact absurd rfl (h2 ys)
    | null => simp [isNullish] at h1
    | float nan =>
        simp only [isNullish] at h1
        subst h1
        simp [isNullish]
    | bool b => simp [isNullish]
    | int n => simp [isNullish]
    | str s => simp [isNullish]
    | obj m => simp [isNullish]
  · intro t ast vars h1 h2
    rw [valueFromAST.eq_def]
    cases ast with
    | «variable» n => exact absurd rfl (h1 n)
    | listValue items => exact absurd rfl (h2 items)
    | intValue s => simp
    | floatValue s => simp
    | stringValue s => simp
    | booleanValue b => simp
    | enumValue s => simp
    | objectValue fs => simp

/-- Witness for C6 (amended): the string "x" under [String] wraps into a
one-element sequence in both the coercer and the evaluator. -/
theorem c6_witness :
    coerceValue (InputType.list stringScalar) (Value.str "x") =
      Value.list [coerceValue stringScalar (Value.str "x")]
    ∧ valueFromAST (some (AstValue.stringValue "x")) (InputType.list stringScalar) none =
      Value.list [valueFromAST (some (AstValue.stringValue "x")) stringScalar none] :=
  ⟨c6_single_element_wrapping.1 stringScalar (Value.str "x") rfl (fun ys h => Value.noConfusion h),
   c6_single_element_wrapping.2 stringScalar (AstValue.stringValue "x") none
     (fun n h => AstValue.noConfusion h) (fun items h => AstValue.noConfusion h)⟩

/-- C6 fails as stated: nil is a non-sequence value, yet coercing it at the
list type [String] produces nil, not a one-element sequence. -/
theorem c6_counterexample :
    coerceValue (InputType.list stringScalar) Value.null = Value.null
    ∧ isOneElementSequence (coerceValue (InputType.list stringScalar) Value.null) = false := by
  have h : coerceValue (InputType.list stringScalar) Value.null = Value.null :=
    coerceValue_nullish _ _ rfl
  exact ⟨h, by rw [h]; rfl⟩

theorem coerce_stringScalar_idem (v : Value) :
    coerceValue stringScalar (coerceValue stringScalar v) = coerceValue stringScalar v := by
  cases v with
  | float nan => cases nan <;> simp [stringScalar, coerceValue.eq_def, stringParseValue, isNullish]
  | _ => simp [stringScalar, coerceValue.eq_def, stringParseValue, isNullish]

/-- C7 (amended): coercion at a list type is idempotent on sequences
provided coercion at the element type is itself idempotent (true of the
built-in scalars, e.g. String); it is not idempotent for every list type —
an input-object element type whose field default is not a fixed point of
coercion breaks it (see the counterexample). -/
theorem c7_list_coercion_idempotent (t : InputType)
    (hidem : ∀ v, coerceValue t (coerceValue t v) = coerceValue t v) (xs : List Value) :
    coerceValue (InputType.list t) (coerceValue (InputType.list t) (Value.list xs)) =
      coerceValue (InputType.list t) (Value.list xs) := by
  rw [coerceValue_list_seq t xs]
  rw [coerceValue_list_seq t (xs.map (fun x => coerceValue t x))]
  simp only [List.map_map]
  congr 1
  exact List.map_congr_left (fun x _ => by simpa [Function.comp] using hidem x)

/-- Witness for C7 (amended): double coercion of [5, "a"] at [String]
equals single coercion (String coercion is idempotent). -/
theorem c7_witness :
    coerceValue (InputType.list stringScalar)
        (coerceValue (InputType.list stringScalar) (Value.list [Value.int 5, Value.str "a"])) =
      coerceValue (InputType.list stringScalar) (Value.list [Value.int 5, Value.str "a"]) :=
  c7_list_coercion_idempotent stringScalar coerce_stringScalar_idem
    [Value.int 5, Value.str "a"]

/-- C7 fails as stated: for the list type [D] with
input D { b: [String] = "x" }, coercing the sequence [{}] once yields
[{b: "x"}] (the raw default), and coercing again wraps the default into
[{b: ["x"]}], so double coercion differs from single coercion. -/
theorem c7_counterexample :
    coerceValue (InputType.list listDefaultObject)
        (coerceValue (InputType.list listDefaultObject) (Value.list [Value.obj []])) ≠
      coerceValue (InputType.list listDefaultObject) (Value.list [Value.obj []]) := by
  have h1 : coerceValue (InputType.list listDefaultObject) (Value.list [Value.obj []]) =
      Value.list [Value.obj [("b", Value.str "x")]] := by
    simp [coerceValue, listDefaultObject, stringScalar, stringParseValue, isNullish,
      lookupField, lookupVal]
  have h2 : coerceValue (InputType.list listDefaultObject)
        (Value.list [Value.obj [("b", Value.str "x")]]) =
      Value.list [Value.obj [("b", Value.list [Value.str "x"])]] := by
    simp [coerceValue, listDefaultObject, stringScalar, stringParseValue, isNullish,
      lookupField, lookupVal]
  rw [h1, h2]
  simp

/-- C8: every key in the map returned by `getVariableValues` is the name
of a declared variable definition, and an input-map key that matches no
definition is ignored: adding such a key changes neither the returned map
nor the returned error. -/
theorem c8_unknown_input_keys_ignored (schema : Schema) (defs : List VariableDefinition)
    (inputs : List (String × Value)) :
    (∀ k v, (k, v) ∈ (getVariableValues schema defs inputs).1 → ∃ d ∈ defs, d.varName = some k)
  ∧ (∀ k v, (∀ d ∈ defs, d.varName ≠ some k) →
        getVariableValues schema defs ((k, v) :: inputs) = getVariableValues schema defs inputs) := by
  constructor
  · intro k v h
    rcases getVariableValuesLoop_mem schema inputs defs [] h with h1 | h2
    · exact absurd h1 (List.not_mem_nil _)
    · exact h2
  · intro k v h
    unfold getVariableValues
    refine getVariableValuesLoop_inputs_congr schema defs [] ?_
    intro d hd n hn
    have hne : ¬ k = n := fun he => h d hd (hn.trans (congrArg some he.symm))
    simp [lookupVal, hne]

/-- Witness for C8: with one declared variable $v and input holding only
the undeclared key "extra", the binder's output is the same as with the
empty input map. -/
theorem c8_witness :
    getVariableValues testSchema [⟨some "v", TypeAst.named (some "String"), none⟩]
        [("extra", Value.int 1)] =
      getVariableValues testSchema [⟨some "v", TypeAst.named (some "String"), none⟩] [] :=
  (c8_unknown_input_keys_ignored testSchema
      [⟨some "v", TypeAst.named (some "String"), none⟩] []).2 "extra" (Value.int 1)
    (fun d hd => by
      rw [List.mem_singleton] at hd
      subst hd
      decide)

/-- C9: `getArgumentValues` is infallible by construction (it returns a
map, never an error), a key for an argument definition is present iff the
evaluated supplied AST value is non-nullish or, failing that, the
definition's default is non-nullish — and then the recorded value is that
non-nullish value — and every key of the result belongs to some
definition. -/
theorem c9_argument_binding (argDefs : List Argument) (argASTs : List AstArgument)
    (vars : Option (List (String × Value))) (d : Argument)
    (hmem : d ∈ argDefs) (hnodup : (argDefs.map Argument.privateName).Nodup) :
    lookupVal (getArgumentValues argDefs argASTs vars) d.privateName =
      (if isNullish (if isNullish (valueFromAST (argSuppliedAst argASTs d.privateName) d.type vars) = true
                     then d.defaultValue
                     else valueFromAST (argSuppliedAst argASTs d.privateName) d.type vars) = true
       then none
       else some (if isNullish (valueFromAST (argSuppliedAst argASTs d.privateName) d.type vars) = true
                  then d.defaultValue
                  else valueFromAST (argSuppliedAst argASTs d.privateName) d.type vars))
    ∧ (∀ k v, (k, v) ∈ getArgumentValues argDefs argASTs vars →
        ∃ d2 ∈ argDefs, d2.privateName = k) := by
  constructor
  · have h := getArgumentValuesLoop_lookup argASTs vars argDefs [] hmem hnodup rfl
    unfold getArgumentValues
    rw [h]
    simp [argBinding]
  · intro k v hkv
    rcases getArgumentValuesLoop_mem argASTs vars argDefs [] hkv with h1 | h2
    · exact absurd h1 (List.not_mem_nil _)
    · exact h2

/-- Witness for C9: argument x: String supplied as $v with variables
{v: "hello"} binds to "hello" (the spec's scenario 5). -/
theorem c9_witness :
    lookupVal (getArgumentValues [⟨"x", stringScalar, Value.null⟩]
        [⟨some "x", some (AstValue.«variable» (some "v"))⟩]
        (some [("v", Value.str "hello")])) "x" = some (Value.str "hello") := by
  have h := (c9_argument_binding [⟨"x", stringScalar, Value.null⟩]
    [⟨some "x", some (AstValue.«variable» (some "v"))⟩]
    (some [("v", Value.str "hello")]) ⟨"x", stringScalar, Value.null⟩
    (List.mem_singleton.mpr rfl) (by simp)).1
  rw [h]
  simp [argSuppliedAst, lookupArgAst, valueFromAST, lookupVal, isNullish]

/-- C10: coercing a sequence at a list type maps the element coercion over
the sequence in place — the result has the same length and keeps elements
whose coercion is absent as absent entries — whereas input-object coercion
omits a field entirely when its final value (coerced value, else default)
is absent. -/
theorem c10_list_preserves_absent_elements :
    (∀ (t : InputType) (xs : List Value),
        coerceValue (InputType.list t) (Value.list xs) =
          Value.list (xs.map (fun x => coerceValue t x))
        ∧ (xs.map (fun x => coerceValue t x)).length = xs.length)
  ∧ (∀ (nm : String) (fields : List (String × InputType × Value)) (valueMap : List (String × Value))
        (fname : String) (ftype : InputType) (fdefault : Value),
        lookupField fields fname = some (ftype, fdefault) →
        (fields.map Prod.fst).Nodup →
        isNullish (if isNullish (coerceValue ftype ((lookupVal valueMap fname).getD Value.null)) = true
                   then fdefault
                   else coerceValue ftype ((lookupVal valueMap fname).getD Value.null)) = true →
        ∃ entries,
          coerceValue (InputType.inputObject nm fields) (Value.obj valueMap) = Value.obj entries
          ∧ lookupVal entries fname = none) := by
  constructor
  · intro t xs
    exact ⟨coerceValue_list_seq t xs, List.length_map xs _⟩
  · intro nm fields valueMap fname ftype fdefault hf hnd habsent
    have hmem : fname ∈ fields.map Prod.fst :=
      List.mem_map_of_mem Prod.fst (lookupField_mem hf)
    obtain ⟨entries, he, hl⟩ := coerceValue_inputObject_lookup nm fields valueMap hnd hmem
    refine ⟨entries, he, ?_⟩
    rw [hl]
    simp only [coerceFieldValue, hf]
    simp [habsent]

/-- Witness for C10: under [String], the sequence [1, "a"] coerces to a
two-element sequence whose first entry is the absent value; and for the
input object D { a: String } (no default), the provided value 1 coerces to
absent and the field a is omitted from the coerced object. -/
theorem c10_witness :
    (coerceValue (InputType.list stringScalar) (Value.list [Value.int 1, Value.str "a"]) =
        Value.list ([Value.int 1, Value.str "a"].map (fun x => coerceValue stringScalar x))
      ∧ ([Value.int 1, Value.str "a"].map (fun x => coerceValue stringScalar x)).length =
          [Value.int 1, Value.str "a"].length)
    ∧ ∃ entries,
        coerceValue (InputType.inputObject "D" [("a", stringScalar, Value.null)])
            (Value.obj [("a", Value.int 1)]) = Value.obj entries
        ∧ lookupVal entries "a" = none :=
  ⟨c10_list_preserves_absent_elements.1 stringScalar [Value.int 1, Value.str "a"],
   c10_list_preserves_absent_elements.2 "D" [("a", stringScalar, Value.null)]
     [("a", Value.int 1)] "a" stringScalar Value.null rfl (by decide)
     (by simp [coerceValue.eq_def, stringScalar, stringParseValue, isNullish, lookupVal])⟩
